import Mathlib

/-!
# Verification of the hierarchical item-code model of `papa_funcional`

Shallow embedding of the code-parsing, parent/child grouping, price
aggregation, rollup, detail-table editing and currency-conversion logic of
the `papa_funcional` construction-budget tool, together with theorems that
settle the specification claims about it.

Sources embedded (Python):
 - `funciones/crear_detallado.py`  (`_parse_key`, `_collect_parents`,
   `_children_of_parent`, `_compute_precio_unitario_por_item`,
   `generar_excel_detallado` rollup loop)
 - `funciones/crear_pdf.py`        (same helpers, different semantics, and
   the `generar_pdf_presupuesto` rollup loop)
 - `funciones/modificar_presupuesto.py` (`_rename_item_and_consolidate`,
   `_delete_item`, the detail-save block, `_norm_item_code`, sorting)
 - `funciones/monedas.py`          (`load_monedas`, `get_moneda_value`,
   `convert_clp_to`)
 - `funciones/presupuesto_utils.py` (`load_presupuesto` column typing)

Python strings are modelled as Lean `String`s, operated on through their
character lists; Python floats are modelled as `ℚ`; a missing / non-numeric
cell (pandas `NaN`) is modelled as `none : Option ℚ`.
-/

/-! ### Character-level split and join

`splitSep` embeds Python `str.split(sep)` for a one-character separator
(in particular `"".split(".") == [""]`), `joinSep` embeds `sep.join`.
-/

def consHead {α : Type} (x : α) : List (List α) → List (List α)
  | [] => [[x]]
  | h :: t => (x :: h) :: t

def splitSep {α : Type} [DecidableEq α] (sep : α) : List α → List (List α)
  | [] => [[]]
  | x :: xs => if x = sep then [] :: splitSep sep xs else consHead x (splitSep sep xs)

def joinSep {α : Type} (sep : α) : List (List α) → List α
  | [] => []
  | [p] => p
  | p :: ps => p ++ sep :: joinSep sep ps

theorem consHead_ne_nil {α : Type} (x : α) (l : List (List α)) : consHead x l ≠ [] := by
  cases l <;> simp [consHead]

theorem splitSep_ne_nil {α : Type} [DecidableEq α] (sep : α) (cs : List α) :
    splitSep sep cs ≠ [] := by
  induction cs with
  | nil => simp [splitSep]
  | cons x xs ih =>
    simp only [splitSep]
    split
    · simp
    · exact consHead_ne_nil _ _

theorem length_consHead {α : Type} (x : α) (l : List (List α)) (h : l ≠ []) :
    (consHead x l).length = l.length := by
  cases l with
  | nil => exact absurd rfl h
  | cons a t => simp [consHead]

theorem length_splitSep {α : Type} [DecidableEq α] (sep : α) (cs : List α) :
    (splitSep sep cs).length = cs.countP (· == sep) + 1 := by
  induction cs with
  | nil => simp [splitSep]
  | cons x xs ih =>
    simp only [splitSep, List.countP_cons]
    by_cases hx : x = sep
    · simp [hx, ih]
    · rw [if_neg hx, length_consHead _ _ (splitSep_ne_nil _ _), ih]
      simp [hx]

theorem joinSep_consHead {α : Type} (sep : α) (x : α) (l : List (List α)) :
    joinSep sep (consHead x l) = x :: joinSep sep l := by
  cases l with
  | nil => simp [consHead, joinSep]
  | cons a t => cases t <;> simp [consHead, joinSep]

theorem joinSep_splitSep {α : Type} [DecidableEq α] (sep : α) (cs : List α) :
    joinSep sep (splitSep sep cs) = cs := by
  induction cs with
  | nil => simp [splitSep, joinSep]
  | cons x xs ih =>
    simp only [splitSep]
    by_cases hx : x = sep
    · rw [if_pos hx]
      cases h : splitSep sep xs with
      | nil => exact absurd h (splitSep_ne_nil _ _)
      | cons a t =>
        subst hx
        simp only [joinSep]
        rw [← h, ih]
        rfl
    · rw [if_neg hx, joinSep_consHead, ih]

theorem splitSep_eq_singleton {α : Type} [DecidableEq α] (sep : α) (cs : List α)
    (h : sep ∉ cs) : splitSep sep cs = [cs] := by
  induction cs with
  | nil => simp [splitSep]
  | cons x xs ih =>
    have hx : x ≠ sep := fun hx => h (hx ▸ List.mem_cons_self x xs)
    have hxs : sep ∉ xs := fun hm => h (List.mem_cons_of_mem _ hm)
    simp only [splitSep, if_neg hx, ih hxs, consHead]

theorem splitSep_append_sep {α : Type} [DecidableEq α] (sep : α) (xs ys : List α) :
    splitSep sep (xs ++ sep :: ys) = splitSep sep xs ++ splitSep sep ys := by
  induction xs with
  | nil => simp [splitSep]
  | cons x xs ih =>
    by_cases hx : x = sep
    · subst hx
      have e1 : splitSep x (x :: (xs ++ x :: ys)) = [] :: splitSep x (xs ++ x :: ys) := by
        simp [splitSep]
      have e2 : splitSep x (x :: xs) = [] :: splitSep x xs := by
        simp [splitSep]
      show splitSep x (x :: (xs ++ x :: ys)) = splitSep x (x :: xs) ++ splitSep x ys
      rw [e1, e2, ih]
      rfl
    · simp only [List.cons_append, splitSep, if_neg hx, List.append_eq]
      cases h : splitSep sep xs with
      | nil => exact absurd h (splitSep_ne_nil _ _)
      | cons a t =>
        rw [ih, h]
        simp [consHead]

theorem headD_splitSep {α : Type} [DecidableEq α] (sep : α) (cs : List α) :
    (splitSep sep cs).headD [] = cs.takeWhile (· ≠ sep) := by
  induction cs with
  | nil => simp [splitSep]
  | cons x xs ih =>
    simp only [splitSep]
    by_cases hx : x = sep
    · simp [hx, List.takeWhile_cons]
    · rw [if_neg hx]
      cases h : splitSep sep xs with
      | nil => exact absurd h (splitSep_ne_nil _ _)
      | cons a t =>
        rw [h] at ih
        simp only [consHead, List.headD_cons, List.takeWhile_cons]
        simp only [List.headD_cons] at ih
        simp [hx, ih]

theorem not_mem_splitSep {α : Type} [DecidableEq α] (sep : α) (cs : List α) :
    ∀ p ∈ splitSep sep cs, sep ∉ p := by
  induction cs with
  | nil => simp [splitSep]
  | cons x xs ih =>
    simp only [splitSep]
    by_cases hx : x = sep
    · rw [if_pos hx]
      intro p hp
      rcases List.mem_cons.1 hp with h | h
      · simp [h]
      · exact ih p h
    · rw [if_neg hx]
      cases h : splitSep sep xs with
      | nil => exact absurd h (splitSep_ne_nil _ _)
      | cons a t =>
        intro p hp
        rcases List.mem_cons.1 (by simpa [consHead] using hp) with h' | h'
        · subst h'
          intro hmem
          rcases List.mem_cons.1 hmem with h'' | h''
          · exact hx h''.symm
          · exact (ih a (h ▸ List.mem_cons_self a t)) h''
        · exact ih p (h ▸ List.mem_cons_of_mem _ h')

theorem splitSep_joinSep {α : Type} [DecidableEq α] (sep : α) (parts : List (List α))
    (h1 : parts ≠ []) (h2 : ∀ p ∈ parts, sep ∉ p) :
    splitSep sep (joinSep sep parts) = parts := by
  induction parts with
  | nil => exact absurd rfl h1
  | cons p ps ih =>
    cases ps with
    | nil =>
      simp only [joinSep]
      exact splitSep_eq_singleton sep p (h2 p (List.mem_cons_self _ _))
    | cons q qs =>
      have hjoin : joinSep sep (p :: q :: qs) = p ++ sep :: joinSep sep (q :: qs) := rfl
      rw [hjoin, splitSep_append_sep,
        splitSep_eq_singleton sep p (h2 p (List.mem_cons_self _ _)),
        ih (by simp) (fun r hr => h2 r (List.mem_cons_of_mem _ hr))]
      rfl

theorem joinSep_append_singleton {α : Type} (sep : α) (qs : List (List α)) (l : List α)
    (h : qs ≠ []) : joinSep sep (qs ++ [l]) = joinSep sep qs ++ sep :: l := by
  induction qs with
  | nil => exact absurd rfl h
  | cons p ps ih =>
    cases ps with
    | nil => simp [joinSep]
    | cons q qs' =>
      have h1 : joinSep sep ((p :: q :: qs') ++ [l])
          = p ++ sep :: joinSep sep ((q :: qs') ++ [l]) := rfl
      have h2 : joinSep sep (p :: q :: qs') = p ++ sep :: joinSep sep (q :: qs') := rfl
      rw [h1, ih (by simp), h2]
      simp

theorem mem_joinSep_of_mem {α : Type} (sep : α) {parts : List (List α)} {p : List α} {a : α}
    (hp : p ∈ parts) (ha : a ∈ p) : a ∈ joinSep sep parts := by
  induction parts with
  | nil => exact absurd hp (List.not_mem_nil _)
  | cons q qs ih =>
    cases qs with
    | nil =>
      rcases List.mem_cons.1 hp with h | h
      · subst h; simpa [joinSep] using ha
      · exact absurd h (List.not_mem_nil _)
    | cons r rs =>
      have hj : joinSep sep (q :: r :: rs) = q ++ sep :: joinSep sep (r :: rs) := rfl
      rw [hj]
      rcases List.mem_cons.1 hp with h | h
      · subst h; exact List.mem_append_left _ ha
      · exact List.mem_append_right _ (List.mem_cons_of_mem _ (ih h))

/-! ### String-level code helpers

Item codes stay Lean `String`s; all operations go through the character
list, mirroring the Python string operations used by the source.
-/

/-- Python `code.split(".")` (note `"".split(".") == [""]`). -/
def dotSplit (s : String) : List String := (splitSep '.' s.data).map String.mk

/-- Number of `.`-separated segments of a code (`len(code.split("."))`). -/
def depth (s : String) : Nat := (dotSplit s).length

/-- Python `code.count(".")`. -/
def countDots (s : String) : Nat := s.data.countP (· == '.')

/-- Whether the code contains a dot at all. -/
def isDotted (s : String) : Bool := s.data.any (· == '.')

/-- Python `s.startswith(p)`. -/
def strSW (s p : String) : Bool := p.data.isPrefixOf s.data

/-- Characters of `code.split(".")[0]`. -/
def topSegChars (s : String) : List Char := (splitSep '.' s.data).headD []

/-- `code.split(".")[0]`, the top-level segment. -/
def topSeg (s : String) : String := String.mk (topSegChars s)

/-- Python `".".join(segs[:-1])` for `segs = code.split(".")`. -/
def stripLastSeg (s : String) : String :=
  String.mk (joinSep '.' ((splitSep '.' s.data).dropLast))

/-- Value of a list of ASCII digits read in base 10. -/
def digitsVal (cs : List Char) : Nat := cs.foldl (fun n c => 10 * n + (c.toNat - 48)) 0

/-- Models Python `int(seg)` on the segment strings item codes are made of:
an optional single sign followed by one or more ASCII digits parses to its
value, anything else fails (`none`).  Further Python forms (surrounding
whitespace, underscore separators, non-ASCII digits) are out of scope. -/
def pyInt? (s : String) : Option Int :=
  match s.data with
  | [] => none
  | '-' :: rest =>
    if rest ≠ [] ∧ rest.all Char.isDigit then some (-(digitsVal rest : Int)) else none
  | '+' :: rest =>
    if rest ≠ [] ∧ rest.all Char.isDigit then some (digitsVal rest : Int) else none
  | cs => if cs.all Char.isDigit then some (digitsVal cs : Int) else none

/-- Segment key of `crear_detallado._parse_key`: `int(seg)`, on failure `0`. -/
def segKeyDet (seg : String) : Int := (pyInt? seg).getD 0

/-- Segment key of `crear_pdf._parse_key`: `int(seg)`, on failure
`int(seg.lstrip("0") or "0")`, on failure `0`. -/
def segKeyPdf (seg : String) : Int :=
  match pyInt? seg with
  | some n => n
  | none =>
    let t := String.mk (seg.data.dropWhile (· == '0'))
    (pyInt? (if t = "" then "0" else t)).getD 0

/-- `crear_detallado._parse_key`. -/
def parseKeyDet (code : String) : List Int := (dotSplit code).map segKeyDet

/-- `crear_pdf._parse_key`. -/
def parseKeyPdf (code : String) : List Int := (dotSplit code).map segKeyPdf

/-- Lexicographic order on integer tuples, as Python compares the tuples
produced by `_parse_key`. -/
def intListLE : List Int → List Int → Bool
  | [], _ => true
  | _ :: _, [] => false
  | a :: as, b :: bs => if a < b then true else if a = b then intListLE as bs else false

/-- Ordering-key comparison used by the `crear_detallado` call sites. -/
def keyLEdet (a b : String) : Bool := intListLE (parseKeyDet a) (parseKeyDet b)

/-- Ordering-key comparison used by the `crear_pdf` call sites. -/
def keyLEpdf (a b : String) : Bool := intListLE (parseKeyPdf a) (parseKeyPdf b)

/-! ### Stable sorting

Python `sorted(..., key=k)` and pandas `kind="mergesort"` are stable sorts;
for a total preorder the output of any stable sort is unique, so they are
modelled by stable insertion sort. -/

/-- Insert `x` after every leading element `y` with `le y x` (stable). -/
def insertLE {α : Type} (le : α → α → Bool) (x : α) : List α → List α
  | [] => [x]
  | y :: ys => if le y x then y :: insertLE le x ys else x :: y :: ys

/-- Stable sort with respect to the boolean preorder `le`. -/
def stableSort {α : Type} (le : α → α → Bool) (l : List α) : List α :=
  l.foldl (fun acc x => insertLE le x acc) []

theorem insertLE_perm {α : Type} (le : α → α → Bool) (x : α) (l : List α) :
    (insertLE le x l).Perm (x :: l) := by
  induction l with
  | nil => simp [insertLE]
  | cons y ys ih =>
    simp only [insertLE]
    split
    · exact (ih.cons y).trans (List.Perm.swap x y ys)
    · exact List.Perm.refl _

theorem stableSort_perm_aux {α : Type} (le : α → α → Bool) (l acc : List α) :
    (l.foldl (fun acc x => insertLE le x acc) acc).Perm (acc ++ l) := by
  induction l generalizing acc with
  | nil => simp
  | cons x xs ih =>
    have h1 := ih (insertLE le x acc)
    have h2 : (insertLE le x acc ++ xs).Perm (acc ++ x :: xs) :=
      ((insertLE_perm le x acc).append_right xs).trans List.perm_middle.symm
    exact h1.trans h2

theorem stableSort_perm {α : Type} (le : α → α → Bool) (l : List α) :
    (stableSort le l).Perm l := by
  simpa using stableSort_perm_aux le l []

theorem mem_stableSort {α : Type} (le : α → α → Bool) (x : α) (l : List α) :
    x ∈ stableSort le l ↔ x ∈ l :=
  (stableSort_perm le l).mem_iff

theorem pairwise_insertLE {α : Type} {le : α → α → Bool}
    (htrans : ∀ a b c, le a b = true → le b c = true → le a c = true)
    (htot : ∀ a b, le a b || le b a) (x : α) {l : List α}
    (hl : l.Pairwise (fun a b => le a b = true)) :
    (insertLE le x l).Pairwise (fun a b => le a b = true) := by
  induction l with
  | nil => simp [insertLE]
  | cons y ys ih =>
    rcases List.pairwise_cons.1 hl with ⟨hy, hys⟩
    simp only [insertLE]
    by_cases h : le y x = true
    · rw [if_pos h]
      refine List.pairwise_cons.2 ⟨?_, ih hys⟩
      intro z hz
      rcases List.mem_cons.1 ((insertLE_perm le x ys).mem_iff.1 hz) with hzx | hzys
      · exact hzx ▸ h
      · exact hy z hzys
    · rw [if_neg h]
      have hxy : le x y = true := by
        rcases Bool.or_eq_true_iff.1 (htot y x) with h' | h'
        · exact absurd h' h
        · exact h'
      refine List.pairwise_cons.2 ⟨?_, hl⟩
      intro z hz
      rcases List.mem_cons.1 hz with hzy | hzys
      · exact hzy ▸ hxy
      · exact htrans x y z hxy (hy z hzys)

theorem pairwise_stableSort_aux {α : Type} {le : α → α → Bool}
    (htrans : ∀ a b c, le a b = true → le b c = true → le a c = true)
    (htot : ∀ a b, le a b || le b a) (l : List α) :
    ∀ acc : List α, acc.Pairwise (fun a b => le a b = true) →
      (l.foldl (fun acc x => insertLE le x acc) acc).Pairwise (fun a b => le a b = true) := by
  induction l with
  | nil => intro acc hacc; exact hacc
  | cons x xs ih =>
    intro acc hacc
    exact ih (insertLE le x acc) (pairwise_insertLE htrans htot x hacc)

theorem pairwise_stableSort {α : Type} {le : α → α → Bool}
    (htrans : ∀ a b c, le a b = true → le b c = true → le a c = true)
    (htot : ∀ a b, le a b || le b a) (l : List α) :
    (stableSort le l).Pairwise (fun a b => le a b = true) :=
  pairwise_stableSort_aux htrans htot l [] List.Pairwise.nil

/-! ### Parent discovery and children lookup (both source variants) -/

/-- `crear_detallado._collect_parents`: for each code with at least two
segments the *top-level* segment is registered as its parent; the distinct
parents are returned sorted by `_parse_key`.  (Python iterates a dict and a
`set`; only membership and the final sort order are relied upon.) -/
def collectParentsDet (items : List String) : List String :=
  stableSort keyLEdet (((items.filter fun it => 2 ≤ (dotSplit it).length).map topSeg).dedup)

/-- Parent occurrences registered by `crear_pdf._collect_parents`, in source
order: for each code with at least two segments its strip-last-segment
parent `".".join(segs[:-1])`, and additionally its top-level segment
whenever the code properly extends `top + "."`. -/
def pdfParentCands (items : List String) : List String :=
  items.flatMap fun it =>
    (if 2 ≤ (dotSplit it).length then [stripLastSeg it] else []) ++
      (if topSeg it ≠ it ∧ strSW it (topSeg it ++ ".") = true then [topSeg it] else [])

/-- `crear_pdf._collect_parents`: distinct parent candidates sorted by its
`_parse_key`. -/
def collectParentsPdf (items : List String) : List String :=
  stableSort keyLEpdf (pdfParentCands items).dedup

/-- `crear_detallado._children_of_parent`: every code starting with
`parent + "."` (all descendants), sorted by `_parse_key`. -/
def childrenOfParentDet (items : List String) (parent : String) : List String :=
  stableSort keyLEdet (items.filter fun it => strSW it (parent ++ "."))

/-- `crear_pdf._children_of_parent`: codes starting with `parent + "."`
whose dot count is exactly `parent.count(".") + 1` (direct children only),
sorted by `_parse_key`. -/
def childrenOfParentPdf (items : List String) (parent : String) : List String :=
  stableSort keyLEpdf
    (items.filter fun it => strSW it (parent ++ ".") && (countDots it == countDots parent + 1))

/-! ### Item-code column loading

The project tables are CSV files read by pandas; whether the `Item`
column keeps its codes as exact strings depends on whether the caller
pins `dtype={"Item": str}`.  These definitions model that boundary; they
are used both by claim C3 and by the PDF rollup total, whose index
lookups go through the *unpinned* loader. -/

/-- A loaded CSV cell: inferred as a number, or kept as an exact string. -/
inductive CsvVal
  | num (q : ℚ)
  | str (s : String)
deriving DecidableEq

/-- Models Python/pandas float parsing for the simple decimal shapes item
codes can take — `digits` or `digits.digits`; signs, exponents and the
other float forms are out of scope for code-like cells. -/
def pdFloat? (s : String) : Option ℚ :=
  match splitSep '.' s.data with
  | [intPart] =>
    if intPart ≠ [] ∧ intPart.all Char.isDigit
    then some (digitsVal intPart : ℚ) else none
  | [intPart, fracPart] =>
    if intPart ≠ [] ∧ fracPart ≠ [] ∧ intPart.all Char.isDigit ∧ fracPart.all Char.isDigit
    then some ((digitsVal intPart : ℚ)
      + (digitsVal fracPart : ℚ) / (10 : ℚ) ^ fracPart.length)
    else none
  | _ => none

/-- Models the `pd.read_csv` column type inference that
`load_presupuesto` (`presupuesto_utils.py` line 28) and
`generar_pdf_presupuesto` (`crear_pdf.py` line 205) trigger on the `Item`
column by reading without a `dtype` pin: when every cell parses as a
number the column is held as floats, otherwise as strings. -/
def inferItemColumn (cells : List String) : List CsvVal :=
  if cells.all fun c => (pdFloat? c).isSome
  then cells.map fun c => CsvVal.num ((pdFloat? c).getD 0)
  else cells.map CsvVal.str

/-- The `dtype={"Item": str}` loading of `generar_excel_detallado`
(`crear_detallado.py` line 144): codes stay exact strings. -/
def loadItemColumnStr (cells : List String) : List CsvVal := cells.map CsvVal.str

/-! ### Report rollup totals -/

/-- `generar_excel_detallado` unit-price conversion (lines 264-266):
`punit_clp / factor` when the conversion factor is positive, the raw CLP
price otherwise. -/
def convertPUnitExcel (factor punit : ℚ) : ℚ := if 0 < factor then punit / factor else punit

/-- Grand total `total_presupuesto` accumulated by the
`generar_excel_detallado` loop: over the Excel-variant parents, over all
their descendants present in the item table, sum the converted unit price
times the item quantity.  `cant` and `precios` model the `datos.csv`
quantity column and the `_compute_precio_unitario_por_item` dict
(`dict.get(code, 0.0)` is a total function defaulting to `0`). -/
def totalExcel (items : List String) (cant precios : String → ℚ) (factor : ℚ) : ℚ :=
  ((collectParentsDet items).map fun parent =>
    ((childrenOfParentDet items parent).map fun child =>
      if child ∈ items then convertPUnitExcel factor (precios child) * cant child else 0).sum).sum

/-- Grand total `total_presupuesto` accumulated by `generar_pdf_presupuesto`:
over the PDF-variant parents, over their direct children, sum unit price
times quantity (no currency conversion) — but only for the children found
in the loaded item index (`crear_pdf.py` line 246,
`if child not in df_datos_idx.index: continue`).  Unlike the Excel
generator, the PDF loader does not pin the `Item` column to `str`
(`crear_pdf.py` line 205), so `items` (the `astype(str)` list the grouping
runs on) and the index are *different* objects: `index` holds the loaded
cells of the `Item` column (`inferItemColumn` of the stored strings), and
the string `child` is found only among `CsvVal.str` cells — never in a
float-inferred column. -/
def totalPdf (items : List String) (index : List CsvVal)
    (cant precios : String → ℚ) : ℚ :=
  ((collectParentsPdf items).map fun parent =>
    ((childrenOfParentPdf items parent).map fun child =>
      if CsvVal.str child ∈ index then precios child * cant child else 0).sum).sum

/-- Follows the claim's words: an item is a *leaf* when no code of the set
extends it by a dot (no children at any depth). -/
def isLeafCode (items : List String) (code : String) : Bool :=
  items.all fun c => ! strSW c (code ++ ".")

/-- Follows the claim's words: the sum over all leaf items of their line
totals (converted unit price × item quantity). -/
def leafTotal (items : List String) (cant precios : String → ℚ) (factor : ℚ) : ℚ :=
  ((items.filter (isLeafCode items)).map fun c =>
    convertPUnitExcel factor (precios c) * cant c).sum

/-! ### Characterizations of the code hierarchy relations -/

theorem depth_eq (s : String) : depth s = countDots s + 1 := by
  simp [depth, dotSplit, countDots, length_splitSep]

theorem isDotted_iff {s : String} : isDotted s = true ↔ '.' ∈ s.data := by
  constructor
  · intro h
    rcases List.any_eq_true.1 h with ⟨a, ha, he⟩
    exact (eq_of_beq he) ▸ ha
  · intro h
    exact List.any_eq_true.2 ⟨'.', h, beq_self_eq_true _⟩

theorem isDotted_false_iff {s : String} : isDotted s = false ↔ '.' ∉ s.data := by
  rw [← Bool.not_eq_true, not_iff_not]
  exact isDotted_iff

theorem two_le_depth_iff (s : String) : 2 ≤ depth s ↔ isDotted s = true := by
  rw [depth_eq, isDotted_iff]
  have h2 : countDots s = s.data.countP (· == '.') := rfl
  constructor
  · intro h
    have h1 : 0 < s.data.countP (· == '.') := by omega
    rcases List.countP_pos_iff.1 h1 with ⟨a, ha, he⟩
    exact (eq_of_beq he) ▸ ha
  · intro h
    have h1 : 0 < s.data.countP (· == '.') :=
      List.countP_pos_iff.2 ⟨'.', h, beq_self_eq_true _⟩
    omega

theorem data_append_dot (p : String) : (p ++ ".").data = p.data ++ ['.'] := by
  rw [String.data_append]

theorem strSW_iff {s p : String} : strSW s p = true ↔ ∃ t, s.data = p.data ++ t := by
  rw [strSW, List.isPrefixOf_iff_prefix]
  constructor
  · rintro ⟨t, ht⟩
    exact ⟨t, ht.symm⟩
  · rintro ⟨t, ht⟩
    exact ⟨t, ht.symm⟩

theorem isDotted_of_strSW_dot {c p : String} (h : strSW c (p ++ ".") = true) :
    isDotted c = true := by
  rcases strSW_iff.1 h with ⟨t, ht⟩
  rw [data_append_dot] at ht
  exact isDotted_iff.2 (by rw [ht]; simp)

theorem takeWhile_append_stop {α : Type} (q : α → Bool) (xs : List α) (y : α) (ys : List α)
    (hxs : ∀ a ∈ xs, q a = true) (hy : q y = false) :
    (xs ++ y :: ys).takeWhile q = xs := by
  induction xs with
  | nil => simp [List.takeWhile_cons, hy]
  | cons x xs ih =>
    have hx : q x = true := hxs x (List.mem_cons_self _ _)
    simp [List.takeWhile_cons, hx, ih (fun a ha => hxs a (List.mem_cons_of_mem _ ha))]

theorem dropWhile_dot_cons (cs : List Char) (h : '.' ∈ cs) :
    ∃ t, cs.dropWhile (fun a => a ≠ '.') = '.' :: t := by
  induction cs with
  | nil => exact absurd h (List.not_mem_nil _)
  | cons x xs ih =>
    by_cases hx : x = '.'
    · subst hx
      exact ⟨xs, by simp [List.dropWhile_cons]⟩
    · rcases List.mem_cons.1 h with h' | h'
      · exact absurd h'.symm hx
      · rcases ih h' with ⟨t, ht⟩
        have hq : decide (x ≠ '.') = true := by simp [hx]
        refine ⟨t, ?_⟩
        rw [List.dropWhile_cons, if_pos hq]
        exact ht

theorem not_mem_topSegChars (s : String) : '.' ∉ topSegChars s := by
  rw [topSegChars]
  cases h : splitSep '.' s.data with
  | nil => exact absurd h (splitSep_ne_nil _ _)
  | cons a t =>
    simp only [List.headD_cons]
    exact not_mem_splitSep '.' s.data a (h ▸ List.mem_cons_self a t)

theorem isDotted_topSeg (s : String) : isDotted (topSeg s) = false := by
  rw [isDotted_false_iff]
  exact not_mem_topSegChars s

theorem topSegChars_eq_takeWhile (s : String) :
    topSegChars s = s.data.takeWhile (· ≠ '.') := by
  rw [topSegChars, headD_splitSep]

/-- The `crear_detallado` parent relation: for a dot-free `p`, a code starts
with `p + "."` exactly when its top-level segment is `p` and it is dotted. -/
theorem strSW_dotfree_iff {p c : String} (hp : isDotted p = false) :
    strSW c (p ++ ".") = true ↔ (topSeg c = p ∧ isDotted c = true) := by
  have hpchars : ∀ a ∈ p.data, (decide (a ≠ '.')) = true := by
    intro a ha
    have : a ≠ '.' := fun he => (isDotted_false_iff.1 hp) (he ▸ ha)
    simp [this]
  constructor
  · intro h
    rcases strSW_iff.1 h with ⟨t, ht⟩
    rw [data_append_dot, List.append_assoc] at ht
    have htake : c.data.takeWhile (· ≠ '.') = p.data := by
      rw [ht]
      exact takeWhile_append_stop _ _ _ _ hpchars (by simp)
    constructor
    · rw [topSeg, topSegChars_eq_takeWhile, htake]
    · exact isDotted_iff.2 (by rw [ht]; simp)
  · rintro ⟨htop, hdot⟩
    have htake : c.data.takeWhile (· ≠ '.') = p.data := by
      rw [← topSegChars_eq_takeWhile]
      exact congrArg String.data htop
    rcases dropWhile_dot_cons c.data (isDotted_iff.1 hdot) with ⟨t, hdrop⟩
    apply strSW_iff.2
    refine ⟨t, ?_⟩
    rw [data_append_dot, List.append_assoc]
    conv_lhs => rw [← List.takeWhile_append_dropWhile (fun a => decide (a ≠ '.')) c.data]
    rw [htake, hdrop]
    rfl

/-- The `crear_pdf` parent relation: a code starts with `p + "."` with dot
count exactly one more than `p` exactly when stripping its last segment
yields `p` (and it is dotted at all). -/
theorem strSW_stripLast_iff (p c : String) :
    (strSW c (p ++ ".") = true ∧ countDots c = countDots p + 1) ↔
      (stripLastSeg c = p ∧ isDotted c = true) := by
  have ecntc : countDots c = c.data.countP (· == '.') := rfl
  have ecntp : countDots p = p.data.countP (· == '.') := rfl
  constructor
  · rintro ⟨hsw, hcnt⟩
    rcases strSW_iff.1 hsw with ⟨t, ht⟩
    rw [data_append_dot, List.append_assoc] at ht
    have ht' : c.data = p.data ++ '.' :: t := ht
    have hsplit : splitSep '.' c.data = splitSep '.' p.data ++ splitSep '.' t := by
      rw [ht']
      exact splitSep_append_sep _ _ _
    have hlc : (splitSep '.' c.data).length = c.data.countP (· == '.') + 1 :=
      length_splitSep _ _
    have hlp : (splitSep '.' p.data).length = p.data.countP (· == '.') + 1 :=
      length_splitSep _ _
    have hlt : (splitSep '.' t).length = 1 := by
      have hl := congrArg List.length hsplit
      rw [List.length_append] at hl
      omega
    have hts : splitSep '.' t = [t] := by
      cases h : splitSep '.' t with
      | nil => exact absurd h (splitSep_ne_nil _ _)
      | cons a t' =>
        have hlen : (a :: t').length = 1 := h ▸ hlt
        have ht0 : t' = [] := by
          cases t' with
          | nil => rfl
          | cons b u => simp at hlen
        subst ht0
        have hj : joinSep '.' (splitSep '.' t) = t := joinSep_splitSep _ _
        rw [h] at hj
        have ha : a = t := hj
        rw [ha]
    have hdrop : (splitSep '.' c.data).dropLast = splitSep '.' p.data := by
      rw [hsplit, hts, List.dropLast_concat]
    constructor
    · rw [stripLastSeg, hdrop, joinSep_splitSep]
    · exact isDotted_iff.2 (by rw [ht']; simp)
  · rintro ⟨hstrip, hdot⟩
    have hne : splitSep '.' c.data ≠ [] := splitSep_ne_nil _ _
    have hlen2 : 2 ≤ (splitSep '.' c.data).length := by
      have hd : 2 ≤ depth c := (two_le_depth_iff c).2 hdot
      rw [depth_eq] at hd
      have h1 : (splitSep '.' c.data).length = c.data.countP (· == '.') + 1 :=
        length_splitSep _ _
      omega
    have hsplit2 : splitSep '.' c.data
        = (splitSep '.' c.data).dropLast ++ [(splitSep '.' c.data).getLast hne] :=
      (List.dropLast_append_getLast hne).symm
    have hql : (splitSep '.' c.data).dropLast ≠ [] := by
      intro h0
      have hl := congrArg List.length hsplit2
      rw [h0] at hl
      simp at hl
      omega
    have hdata : c.data = joinSep '.' (splitSep '.' c.data) :=
      (joinSep_splitSep '.' c.data).symm
    have hjoin2 : joinSep '.' (splitSep '.' c.data)
        = joinSep '.' (splitSep '.' c.data).dropLast
            ++ '.' :: (splitSep '.' c.data).getLast hne := by
      conv_lhs => rw [hsplit2]
      exact joinSep_append_singleton _ _ _ hql
    have hpdata : p.data = joinSep '.' (splitSep '.' c.data).dropLast := by
      rw [← hstrip]
      rfl
    constructor
    · apply strSW_iff.2
      refine ⟨(splitSep '.' c.data).getLast hne, ?_⟩
      rw [data_append_dot, List.append_assoc, hpdata]
      conv_lhs => rw [hdata, hjoin2]
      rfl
    · have hsp : splitSep '.' p.data = (splitSep '.' c.data).dropLast := by
        rw [hpdata]
        exact splitSep_joinSep '.' _ hql
          (fun r hr => not_mem_splitSep '.' c.data r ((List.dropLast_sublist _).subset hr))
      have h1 : (splitSep '.' c.data).length = c.data.countP (· == '.') + 1 :=
        length_splitSep _ _
      have h2 : (splitSep '.' p.data).length = p.data.countP (· == '.') + 1 :=
        length_splitSep _ _
      rw [hsp] at h2
      have h3 : (splitSep '.' c.data).dropLast.length = (splitSep '.' c.data).length - 1 :=
        List.length_dropLast _
      omega

theorem mem_collectParentsDet_iff (items : List String) (p : String) :
    p ∈ collectParentsDet items ↔
      (isDotted p = false ∧ ∃ c ∈ items, strSW c (p ++ ".") = true) := by
  rw [collectParentsDet, mem_stableSort, List.mem_dedup, List.mem_map]
  constructor
  · rintro ⟨c, hc, hp⟩
    rcases List.mem_filter.1 hc with ⟨hcmem, hdep⟩
    have hdep' : 2 ≤ depth c := by simpa [depth] using hdep
    have hdot : isDotted c = true := (two_le_depth_iff c).1 hdep'
    subst hp
    refine ⟨isDotted_topSeg c, c, hcmem, ?_⟩
    exact (strSW_dotfree_iff (isDotted_topSeg c)).2 ⟨rfl, hdot⟩
  · rintro ⟨hp, c, hc, hsw⟩
    rcases (strSW_dotfree_iff hp).1 hsw with ⟨htop, hdot⟩
    refine ⟨c, List.mem_filter.2 ⟨hc, ?_⟩, htop⟩
    simpa [depth] using (two_le_depth_iff c).2 hdot

theorem mem_pdfParentCands_iff (items : List String) (p : String) :
    p ∈ pdfParentCands items ↔
      ∃ c ∈ items, strSW c (p ++ ".") = true ∧
        (countDots c = countDots p + 1 ∨ isDotted p = false) := by
  rw [pdfParentCands, List.mem_flatMap]
  constructor
  · rintro ⟨c, hc, hp⟩
    rcases List.mem_append.1 hp with h | h
    · by_cases hdep : 2 ≤ (dotSplit c).length
      · rw [if_pos hdep] at h
        have hps : p = stripLastSeg c := by simpa using h
        have hdot : isDotted c = true := (two_le_depth_iff c).1 hdep
        have hiff := (strSW_stripLast_iff p c).2 ⟨hps.symm, hdot⟩
        exact ⟨c, hc, hiff.1, Or.inl hiff.2⟩
      · rw [if_neg hdep] at h
        exact absurd h (List.not_mem_nil _)
    · by_cases hcond : topSeg c ≠ c ∧ strSW c (topSeg c ++ ".") = true
      · rw [if_pos hcond] at h
        have hps : p = topSeg c := by simpa using h
        subst hps
        exact ⟨c, hc, hcond.2, Or.inr (isDotted_topSeg c)⟩
      · rw [if_neg hcond] at h
        exact absurd h (List.not_mem_nil _)
  · rintro ⟨c, hc, hsw, hor⟩
    refine ⟨c, hc, ?_⟩
    rcases hor with hcnt | hpfree
    · rcases (strSW_stripLast_iff p c).1 ⟨hsw, hcnt⟩ with ⟨hstrip, hdot⟩
      apply List.mem_append_left
      rw [if_pos (show 2 ≤ (dotSplit c).length from (two_le_depth_iff c).2 hdot)]
      exact hstrip ▸ List.mem_cons_self _ _
    · rcases (strSW_dotfree_iff hpfree).1 hsw with ⟨htop, hdot⟩
      apply List.mem_append_right
      have hne : topSeg c ≠ c := by
        intro he
        have hfree := isDotted_topSeg c
        rw [he] at hfree
        rw [hfree] at hdot
        exact Bool.false_ne_true hdot
      have hsw' : strSW c (topSeg c ++ ".") = true := by
        rw [htop]
        exact hsw
      rw [if_pos ⟨hne, hsw'⟩]
      exact htop ▸ List.mem_cons_self _ _

theorem mem_collectParentsPdf_iff (items : List String) (p : String) :
    p ∈ collectParentsPdf items ↔
      ∃ c ∈ items, strSW c (p ++ ".") = true ∧
        (countDots c = countDots p + 1 ∨ isDotted p = false) := by
  rw [collectParentsPdf, mem_stableSort, List.mem_dedup]
  exact mem_pdfParentCands_iff items p

/-! ### Totality and transitivity of the ordering keys -/

theorem intListLE_total (a b : List Int) : intListLE a b || intListLE b a := by
  induction a generalizing b with
  | nil => simp [intListLE]
  | cons x xs ih =>
    cases b with
    | nil => simp [intListLE]
    | cons y ys =>
      simp only [intListLE]
      rcases lt_trichotomy x y with h | h | h
      · simp [h]
      · subst h
        simpa [lt_irrefl] using ih ys
      · simp [h, not_lt_of_gt h, (ne_of_gt h).symm]

theorem intListLE_trans (a b c : List Int) (h1 : intListLE a b = true)
    (h2 : intListLE b c = true) : intListLE a c = true := by
  induction a generalizing b c with
  | nil => simp [intListLE]
  | cons x xs ih =>
    cases b with
    | nil => simp [intListLE] at h1
    | cons y ys =>
      cases c with
      | nil => simp [intListLE] at h2
      | cons z zs =>
        simp only [intListLE] at h1 h2 ⊢
        by_cases hxy : x < y
        · by_cases hyz : y < z
          · simp [hxy.trans hyz]
          · by_cases hyz' : y = z
            · subst hyz'
              simp [hxy]
            · rw [if_neg hyz, if_neg hyz'] at h2
              exact absurd h2 (by simp)
        · by_cases hxy' : x = y
          · subst hxy'
            rw [if_neg hxy, if_pos rfl] at h1
            by_cases hyz : x < z
            · simp [hyz]
            · by_cases hyz' : x = z
              · subst hyz'
                rw [if_neg hyz, if_pos rfl] at h2
                rw [if_neg hyz, if_pos rfl]
                exact ih ys zs h1 h2
              · rw [if_neg hyz, if_neg hyz'] at h2
                exact absurd h2 (by simp)
          · rw [if_neg hxy, if_neg hxy'] at h1
            exact absurd h1 (by simp)

theorem keyLEdet_trans (a b c : String) (h1 : keyLEdet a b = true)
    (h2 : keyLEdet b c = true) : keyLEdet a c = true :=
  intListLE_trans _ _ _ h1 h2

theorem keyLEdet_total (a b : String) : keyLEdet a b || keyLEdet b a :=
  intListLE_total _ _

theorem keyLEpdf_trans (a b c : String) (h1 : keyLEpdf a b = true)
    (h2 : keyLEpdf b c = true) : keyLEpdf a c = true :=
  intListLE_trans _ _ _ h1 h2

theorem keyLEpdf_total (a b : String) : keyLEpdf a b || keyLEpdf b a :=
  intListLE_total _ _

/-! ### Counting parents of a fixed child -/

theorem countP_eq_one_of_pred_iff {α : Type} [DecidableEq α] (l : List α) (q : α → Bool)
    (hnd : l.Nodup) (t : α) (ht : t ∈ l) (hq : ∀ a ∈ l, q a = true ↔ a = t) :
    l.countP q = 1 := by
  have h1 : l.countP q = l.countP (· == t) :=
    List.countP_congr (fun a ha => by rw [hq a ha, beq_iff_eq])
  rw [h1]
  have h2 : l.countP (· == t) = l.count t := (List.count_eq_countP _ _).symm
  rw [h2]
  exact List.count_eq_one_of_mem hnd ht

/-- In the Excel variant, a code present in the item table starts with
`p + "."` for exactly one registered parent `p` when it is dotted, and for
none otherwise. -/
theorem countP_parentsDet (items : List String) (c : String) (hc : c ∈ items) :
    ((((items.filter fun it => 2 ≤ (dotSplit it).length).map topSeg).dedup).countP
      fun p => strSW c (p ++ ".")) = if isDotted c = true then 1 else 0 := by
  by_cases hdot : isDotted c = true
  · rw [if_pos hdot]
    apply countP_eq_one_of_pred_iff _ _ (List.nodup_dedup _) (topSeg c)
    · apply List.mem_dedup.2
      apply List.mem_map.2
      refine ⟨c, List.mem_filter.2 ⟨hc, ?_⟩, rfl⟩
      simpa [depth] using (two_le_depth_iff c).2 hdot
    · intro p hp
      have hpfree : isDotted p = false := by
        rcases List.mem_map.1 (List.mem_dedup.1 hp) with ⟨d, _, hpd⟩
        exact hpd ▸ isDotted_topSeg d
      rw [strSW_dotfree_iff hpfree]
      constructor
      · rintro ⟨htop, _⟩
        exact htop.symm
      · intro hpt
        exact ⟨hpt ▸ rfl, hdot⟩
  · rw [if_neg hdot]
    apply List.countP_eq_zero.2
    intro p _ hsw
    exact hdot (isDotted_of_strSW_dot hsw)

/-- In the PDF variant, a code present in the item table is a direct child
of exactly one registered parent when it is dotted, and of none otherwise. -/
theorem countP_parentsPdf (items : List String) (c : String) (hc : c ∈ items) :
    (((pdfParentCands items).dedup).countP
      fun p => strSW c (p ++ ".") && (countDots c == countDots p + 1))
      = if isDotted c = true then 1 else 0 := by
  by_cases hdot : isDotted c = true
  · rw [if_pos hdot]
    apply countP_eq_one_of_pred_iff _ _ (List.nodup_dedup _) (stripLastSeg c)
    · apply List.mem_dedup.2
      apply (mem_pdfParentCands_iff items (stripLastSeg c)).2
      have h := (strSW_stripLast_iff (stripLastSeg c) c).2 ⟨rfl, hdot⟩
      exact ⟨c, hc, h.1, Or.inl h.2⟩
    · intro p _
      constructor
      · intro hq
        rcases Bool.and_eq_true_iff.1 hq with ⟨hsw, hcnt⟩
        have hcnt' : countDots c = countDots p + 1 := by simpa using hcnt
        exact ((strSW_stripLast_iff p c).1 ⟨hsw, hcnt'⟩).1.symm
      · intro hpt
        subst hpt
        have h := (strSW_stripLast_iff (stripLastSeg c) c).2 ⟨rfl, hdot⟩
        rw [h.1]
        simp [h.2]
  · rw [if_neg hdot]
    apply List.countP_eq_zero.2
    intro p _ hq
    rcases Bool.and_eq_true_iff.1 hq with ⟨hsw, _⟩
    exact hdot (isDotted_of_strSW_dot hsw)

/-! ### Sum bookkeeping for the rollup totals -/

theorem sum_map_filter_eq_sum_ite {α : Type} (p : α → Bool) (f : α → ℚ) (l : List α) :
    ((l.filter p).map f).sum = (l.map fun a => if p a = true then f a else 0).sum := by
  induction l with
  | nil => simp
  | cons x xs ih =>
    by_cases hx : p x = true
    · simp [List.filter_cons, hx, ih]
    · simp [List.filter_cons, hx, ih]

theorem sum_map_swap {α β : Type} (ps : List α) (xs : List β) (g : α → β → ℚ) :
    (ps.map fun p => (xs.map (g p)).sum).sum = (xs.map fun x => (ps.map fun p => g p x).sum).sum := by
  induction ps with
  | nil => simp [List.sum_eq_zero]
  | cons p ps ih =>
    simp only [List.map_cons, List.sum_cons, ih]
    rw [← List.sum_map_add]

theorem sum_map_ite_count {α : Type} (ps : List α) (q : α → Bool) (v : ℚ) :
    (ps.map fun p => if q p = true then v else 0).sum = (ps.countP q : ℚ) * v := by
  induction ps with
  | nil => simp
  | cons p ps ih =>
    by_cases hp : q p = true
    · simp only [List.map_cons, List.sum_cons, ih, List.countP_cons, hp, if_pos]
      push_cast
      ring
    · simp only [List.map_cons, List.sum_cons, ih, List.countP_cons, hp, if_neg, if_false]
      simp [hp]

theorem rollup_eq_dotted_sum (P items : List String)
    (pred : String → String → Bool) (f : String → ℚ)
    (hcount : ∀ c ∈ items, (P.countP fun p => pred p c) = if isDotted c = true then 1 else 0) :
    (P.map fun p =>
      ((items.filter fun c => pred p c).map fun c => if c ∈ items then f c else 0).sum).sum
      = ((items.filter isDotted).map f).sum := by
  have step1 : (P.map fun p =>
      ((items.filter fun c => pred p c).map fun c => if c ∈ items then f c else 0).sum).sum
      = (P.map fun p => ((items.filter fun c => pred p c).map f).sum).sum := by
    apply congrArg List.sum
    apply List.map_congr_left
    intro p _
    apply congrArg List.sum
    apply List.map_congr_left
    intro a ha
    rw [if_pos (List.mem_of_mem_filter ha)]
  have step2 : (P.map fun p => ((items.filter fun c => pred p c).map f).sum).sum
      = (P.map fun p => (items.map fun c => if pred p c = true then f c else 0).sum).sum := by
    apply congrArg List.sum
    apply List.map_congr_left
    intro p _
    exact sum_map_filter_eq_sum_ite _ f items
  have step3 : (P.map fun p => (items.map fun c => if pred p c = true then f c else 0).sum).sum
      = (items.map fun c => (P.map fun p => if pred p c = true then f c else 0).sum).sum :=
    sum_map_swap P items _
  have step4 : (items.map fun c => (P.map fun p => if pred p c = true then f c else 0).sum).sum
      = (items.map fun c => if isDotted c = true then f c else 0).sum := by
    apply congrArg List.sum
    apply List.map_congr_left
    intro c hc
    rw [sum_map_ite_count P (fun p => pred p c) (f c), hcount c hc]
    by_cases hd : isDotted c = true
    · simp [hd]
    · simp [hd]
  rw [step1, step2, step3, step4, ← sum_map_filter_eq_sum_ite]

/-- The Excel grand total is the sum of line totals over all dotted
(non-top-level) item codes. -/
theorem totalExcel_eq_dotted_sum (items : List String) (cant precios : String → ℚ)
    (factor : ℚ) :
    totalExcel items cant precios factor
      = ((items.filter isDotted).map fun c =>
          convertPUnitExcel factor (precios c) * cant c).sum := by
  have h1 : totalExcel items cant precios factor
      = ((((items.filter fun it => 2 ≤ (dotSplit it).length).map topSeg).dedup).map fun p =>
          ((childrenOfParentDet items p).map fun child =>
            if child ∈ items then convertPUnitExcel factor (precios child) * cant child
            else 0).sum).sum := by
    unfold totalExcel collectParentsDet
    exact ((stableSort_perm keyLEdet _).map _).sum_eq
  have h2 : ∀ p : String,
      ((childrenOfParentDet items p).map fun child =>
        if child ∈ items then convertPUnitExcel factor (precios child) * cant child else 0).sum
      = ((items.filter fun c => strSW c (p ++ ".")).map fun child =>
          if child ∈ items then convertPUnitExcel factor (precios child) * cant child
          else 0).sum := by
    intro p
    unfold childrenOfParentDet
    exact ((stableSort_perm keyLEdet _).map _).sum_eq
  rw [h1]
  refine Eq.trans ?_ (rollup_eq_dotted_sum _ items (fun p c => strSW c (p ++ "."))
    (fun c => convertPUnitExcel factor (precios c) * cant c) (countP_parentsDet items))
  apply congrArg List.sum
  apply List.map_congr_left
  intro p _
  exact h2 p

theorem mem_map_csvStr_iff (items : List String) (child : String) :
    CsvVal.str child ∈ items.map CsvVal.str ↔ child ∈ items := by
  constructor
  · intro h
    rcases List.mem_map.1 h with ⟨a, ha, he⟩
    injection he with he'
    exact he' ▸ ha
  · intro h
    exact List.mem_map.2 ⟨child, h, rfl⟩

/-- When the `Item` column is loaded as exact strings (the object-dtype
case, which pandas produces whenever some code fails float inference) the
index lookup of `crear_pdf.py` line 246 is plain list membership, and the
PDF grand total is the sum of line totals over all dotted item codes. -/
theorem totalPdf_str_index_eq_dotted_sum (items : List String)
    (cant precios : String → ℚ) :
    totalPdf items (items.map CsvVal.str) cant precios
      = ((items.filter isDotted).map fun c => precios c * cant c).sum := by
  have h0 : totalPdf items (items.map CsvVal.str) cant precios
      = ((collectParentsPdf items).map fun p =>
          ((childrenOfParentPdf items p).map fun child =>
            if child ∈ items then precios child * cant child else 0).sum).sum := by
    unfold totalPdf
    apply congrArg List.sum
    apply List.map_congr_left
    intro p _
    apply congrArg List.sum
    apply List.map_congr_left
    intro c _
    exact if_congr (mem_map_csvStr_iff items c) rfl rfl
  have h1 : ((collectParentsPdf items).map fun p =>
        ((childrenOfParentPdf items p).map fun child =>
          if child ∈ items then precios child * cant child else 0).sum).sum
      = (((pdfParentCands items).dedup).map fun p =>
          ((childrenOfParentPdf items p).map fun child =>
            if child ∈ items then precios child * cant child else 0).sum).sum := by
    unfold collectParentsPdf
    exact ((stableSort_perm keyLEpdf _).map _).sum_eq
  have h2 : ∀ p : String,
      ((childrenOfParentPdf items p).map fun child =>
        if child ∈ items then precios child * cant child else 0).sum
      = ((items.filter fun c =>
            strSW c (p ++ ".") && (countDots c == countDots p + 1)).map fun child =>
          if child ∈ items then precios child * cant child else 0).sum := by
    intro p
    unfold childrenOfParentPdf
    exact ((stableSort_perm keyLEpdf _).map _).sum_eq
  rw [h0, h1]
  refine Eq.trans ?_ (rollup_eq_dotted_sum _ items
    (fun p c => strSW c (p ++ ".") && (countDots c == countDots p + 1))
    (fun c => precios c * cant c) (countP_parentsPdf items))
  apply congrArg List.sum
  apply List.map_congr_left
  intro p _
  exact h2 p

/-- When no loaded `Item` cell is a string (the float-inferred case pandas
produces for all-numeric code tables, reproduced by `repro_empty.py`),
every string child fails the index lookup of `crear_pdf.py` line 246,
every child row is skipped and the PDF grand total is `0`. -/
theorem totalPdf_no_str_index_eq_zero (items : List String) (index : List CsvVal)
    (cant precios : String → ℚ) (h : ∀ s : String, CsvVal.str s ∉ index) :
    totalPdf items index cant precios = 0 := by
  unfold totalPdf
  apply List.sum_eq_zero
  intro x hx
  rcases List.mem_map.1 hx with ⟨p, _, hpx⟩
  rw [← hpx]
  apply List.sum_eq_zero
  intro y hy
  rcases List.mem_map.1 hy with ⟨c, _, hcy⟩
  rw [← hcy, if_neg (h c)]

theorem convertPUnitExcel_one (x : ℚ) : convertPUnitExcel 1 x = x := by
  rw [convertPUnitExcel, if_pos one_pos, div_one]

/-! ### Claim C1 -/

/-- **C1** (amended): the Excel generator's grand total equals the sum of
line totals over the items with a *dotted* (non-top-level) code — its
loader pins the `Item` column to `str` (`crear_detallado.py` line 144), so
its index holds the stored strings.  The PDF generator's grand total
equals the same sum only when its *unpinned* loader (`crear_pdf.py` line
205) happens to deliver the `Item` column as exact strings, i.e. when some
stored code fails float inference; whenever the dotted items are exactly
the leaf items — in particular for every two-level code set — these sums
equal the sum over all leaf items of their line totals (unit price × item
quantity), as the claim states.  But when every loaded `Item` cell is
float-inferred (any all-numeric-looking code table), no string child is
ever found in the index (`crear_pdf.py` line 246), every child row is
skipped and the PDF grand total is `0` regardless of the data.  At nesting
depth ≥ 3, or with childless top-level items, the dotted sum also differs
from the leaf sum (see the counterexample). -/
theorem C1_rollup_total_amended (items : List String) (index : List CsvVal)
    (cant precios : String → ℚ) (factor : ℚ)
    (h : ∀ c ∈ items, isDotted c = isLeafCode items c) :
    totalExcel items cant precios factor = leafTotal items cant precios factor ∧
    totalPdf items (items.map CsvVal.str) cant precios
      = leafTotal items cant precios 1 ∧
    ((∀ s : String, CsvVal.str s ∉ index) → totalPdf items index cant precios = 0) := by
  have hfilter : items.filter isDotted = items.filter (isLeafCode items) :=
    List.filter_congr h
  refine ⟨?_, ?_, fun hidx => totalPdf_no_str_index_eq_zero items index cant precios hidx⟩
  · rw [totalExcel_eq_dotted_sum]
    unfold leafTotal
    rw [hfilter]
  · rw [totalPdf_str_index_eq_dotted_sum]
    unfold leafTotal
    rw [hfilter]
    apply congrArg List.sum
    apply List.map_congr_left
    intro c _
    rw [convertPUnitExcel_one]

/-- Concrete inputs for C1: items `["1.01","1.02","2.01"]`, quantity 1 each,
unit prices 1000 / 2000 / 3000 (the spec's own end-to-end scenario). -/
def preciosEscenario : String → ℚ := fun c =>
  if c = "1.01" then 1000 else if c = "1.02" then 2000 else if c = "2.01" then 3000 else 0

theorem C1_rollup_total_amended_witness :
    (∀ c ∈ ["1.01", "1.02", "2.01"],
      isDotted c = isLeafCode ["1.01", "1.02", "2.01"] c) ∧
    (∀ s : String, CsvVal.str s ∉ [CsvVal.num 1, CsvVal.num 2, CsvVal.num 3]) ∧
    (totalExcel ["1.01", "1.02", "2.01"] (fun _ => 1) preciosEscenario 1
        = leafTotal ["1.01", "1.02", "2.01"] (fun _ => 1) preciosEscenario 1 ∧
      totalPdf ["1.01", "1.02", "2.01"]
          ((["1.01", "1.02", "2.01"] : List String).map CsvVal.str)
          (fun _ => 1) preciosEscenario
        = leafTotal ["1.01", "1.02", "2.01"] (fun _ => 1) preciosEscenario 1 ∧
      totalPdf ["1.01", "1.02", "2.01"] [CsvVal.num 1, CsvVal.num 2, CsvVal.num 3]
          (fun _ => 1) preciosEscenario = 0) := by
  have hnum : ∀ s : String,
      CsvVal.str s ∉ [CsvVal.num 1, CsvVal.num 2, CsvVal.num 3] := by
    intro s
    simp
  have h := C1_rollup_total_amended ["1.01", "1.02", "2.01"]
    [CsvVal.num 1, CsvVal.num 2, CsvVal.num 3] (fun _ => 1) preciosEscenario 1 (by decide)
  exact ⟨by decide, hnum, h.1, h.2.1, h.2.2 hnum⟩

/-- Concrete three-level price map: item `"1.01"` (itself a parent of
`"1.01.01"`) has unit price 10, its child has 5. -/
def preciosTresNiveles : String → ℚ := fun c =>
  if c = "1.01" then 10 else if c = "1.01.01" then 5 else 0

/-- **C1** as stated is false on two independent traced grounds.  (i) Depth
3: with items `["1.01","1.01.01"]` (quantity 1 each) — a table whose `Item`
column stays strings even under the unpinned loader, since `"1.01.01"` is
not numeric-like — both generators produce a grand total of 15, the
non-leaf `"1.01"` summed alongside its descendant, while the leaf sum is 5.
(ii) The spec's own two-level scenario `["1.01","1.02","2.01"]` is entirely
numeric-like, so the PDF loader float-infers the `Item` index, every child
lookup misses, and the PDF grand total is 0 rather than the leaf sum
6000. -/
theorem C1_rollup_total_counterexample :
    totalExcel ["1.01", "1.01.01"] (fun _ => 1) preciosTresNiveles 1
        ≠ leafTotal ["1.01", "1.01.01"] (fun _ => 1) preciosTresNiveles 1 ∧
    totalPdf ["1.01", "1.01.01"] (inferItemColumn ["1.01", "1.01.01"])
        (fun _ => 1) preciosTresNiveles
        ≠ leafTotal ["1.01", "1.01.01"] (fun _ => 1) preciosTresNiveles 1 ∧
    totalPdf ["1.01", "1.02", "2.01"] (inferItemColumn ["1.01", "1.02", "2.01"])
        (fun _ => 1) preciosEscenario = 0 ∧
    leafTotal ["1.01", "1.02", "2.01"] (fun _ => 1) preciosEscenario 1 = 6000 := by
  have hd : ((["1.01", "1.01.01"] : List String).filter isDotted) = ["1.01", "1.01.01"] := by
    decide
  have hl : ((["1.01", "1.01.01"] : List String).filter
      (isLeafCode ["1.01", "1.01.01"])) = ["1.01.01"] := by
    decide
  have hinf3 : inferItemColumn ["1.01", "1.01.01"]
      = (["1.01", "1.01.01"] : List String).map CsvVal.str := by
    unfold inferItemColumn
    rw [if_neg (by decide)]
  have hnum : ∀ s : String, CsvVal.str s ∉ inferItemColumn ["1.01", "1.02", "2.01"] := by
    intro s
    unfold inferItemColumn
    rw [if_pos (by decide)]
    simp
  have hleaf : ((["1.01", "1.02", "2.01"] : List String).filter
      (isLeafCode ["1.01", "1.02", "2.01"])) = ["1.01", "1.02", "2.01"] := by
    decide
  refine ⟨?_, ?_, ?_, ?_⟩
  · rw [totalExcel_eq_dotted_sum]
    unfold leafTotal
    rw [hd, hl]
    norm_num [preciosTresNiveles, convertPUnitExcel]
  · rw [hinf3, totalPdf_str_index_eq_dotted_sum]
    unfold leafTotal
    rw [hd, hl]
    norm_num [preciosTresNiveles, convertPUnitExcel]
  · exact totalPdf_no_str_index_eq_zero _ _ _ _ hnum
  · unfold leafTotal
    rw [hleaf]
    norm_num [preciosEscenario, convertPUnitExcel]
    rw [if_neg (by decide), if_neg (by decide), if_neg (by decide)]
    norm_num

/-! ### Claim C2 -/

/-- Follows the claim's words (spec §4.2): return exactly the codes `P`
such that at least one code `C` of the set starts with `P + "."` and has
split-by-dot depth exactly one greater than `P` — equivalently (by
`strSW_stripLast_iff`) the strip-last-segment prefixes of the dotted codes —
sorted by the ordering key. -/
def claimCollectParents (items : List String) : List String :=
  stableSort keyLEdet (((items.filter isDotted).map stripLastSeg).dedup)

/-- **C2** as stated is false for both implementations at depth 3: for
`{"1.01.01"}` the claim's contract yields `["1.01"]`, but the
`crear_detallado` variant returns `["1"]` (top-level segment only) and the
`crear_pdf` variant returns `["1", "1.01"]` (strip-last parent *plus* the
top-level segment). -/
theorem C2_collect_parents_counterexample :
    collectParentsDet ["1.01.01"] ≠ claimCollectParents ["1.01.01"] ∧
    collectParentsPdf ["1.01.01"] ≠ claimCollectParents ["1.01.01"] ∧
    collectParentsDet ["1.01.01"] = ["1"] ∧
    collectParentsPdf ["1.01.01"] = ["1", "1.01"] ∧
    claimCollectParents ["1.01.01"] = ["1.01"] := by
  decide

/-- **C2** (amended): membership in the two `_collect_parents` variants is
characterized as follows — the `crear_detallado` variant returns exactly the
dot-free (top-level) codes that some code of the set extends by a dot, at
*any* depth; the `crear_pdf` variant returns exactly the codes `P` with a
code starting `P + "."` at depth exactly one greater *or* with `P`
dot-free; both are sorted by their `_parse_key` ordering key, and on the
spec's example both return `["1", "2"]`. -/
theorem C2_collect_parents_amended :
    (∀ (items : List String) (p : String), p ∈ collectParentsDet items ↔
      (isDotted p = false ∧ ∃ c ∈ items, strSW c (p ++ ".") = true)) ∧
    (∀ (items : List String) (p : String), p ∈ collectParentsPdf items ↔
      ∃ c ∈ items, strSW c (p ++ ".") = true ∧
        (depth c = depth p + 1 ∨ isDotted p = false)) ∧
    (∀ items : List String,
      (collectParentsDet items).Pairwise fun a b => keyLEdet a b = true) ∧
    (∀ items : List String,
      (collectParentsPdf items).Pairwise fun a b => keyLEpdf a b = true) ∧
    collectParentsDet ["1.01", "1.02", "2.01"] = ["1", "2"] ∧
    collectParentsPdf ["1.01", "1.02", "2.01"] = ["1", "2"] := by
  refine ⟨mem_collectParentsDet_iff, ?_, ?_, ?_, by decide, by decide⟩
  · intro items p
    rw [mem_collectParentsPdf_iff]
    constructor
    · rintro ⟨c, hc, hsw, hor⟩
      refine ⟨c, hc, hsw, ?_⟩
      rcases hor with h | h
      · left
        rw [depth_eq, depth_eq, h]
      · right
        exact h
    · rintro ⟨c, hc, hsw, hor⟩
      refine ⟨c, hc, hsw, ?_⟩
      rcases hor with h | h
      · left
        have hc' := depth_eq c
        have hp' := depth_eq p
        omega
      · right
        exact h
  · intro items
    exact pairwise_stableSort keyLEdet_trans keyLEdet_total _
  · intro items
    exact pairwise_stableSort keyLEpdf_trans keyLEpdf_total _

/-! ### Claim C4 -/

/-- **C4** as stated is false for the `crear_pdf` variant: `"1.01.01"`
starts with `"1."` yet is not returned for parent `"1"` (the variant is
hard-wired to direct children), while the `crear_detallado` variant is
hard-wired to all descendants; no explicit flag exists. -/
theorem C4_children_of_counterexample :
    strSW "1.01.01" ("1" ++ ".") = true ∧
    "1.01.01" ∉ childrenOfParentPdf ["1.01", "1.01.01"] "1" ∧
    childrenOfParentPdf ["1.01", "1.01.01"] "1" = ["1.01"] ∧
    childrenOfParentDet ["1.01", "1.01.01"] "1" = ["1.01", "1.01.01"] := by
  decide

/-- **C4** (amended): the `crear_detallado` variant returns exactly the
codes of the set starting with `parent + "."` (all descendants); the
`crear_pdf` variant returns exactly those additionally at split-depth
`parent + 1` (direct children only); the direct-vs-all choice is fixed per
implementation, not an explicit flag; both sort by the ordering key, and
the claim's example values hold in both variants. -/
theorem C4_children_of_amended :
    (∀ (items : List String) (parent c : String),
      c ∈ childrenOfParentDet items parent ↔
        (c ∈ items ∧ strSW c (parent ++ ".") = true)) ∧
    (∀ (items : List String) (parent c : String),
      c ∈ childrenOfParentPdf items parent ↔
        (c ∈ items ∧ strSW c (parent ++ ".") = true ∧ depth c = depth parent + 1)) ∧
    (∀ (items : List String) (parent : String),
      (childrenOfParentDet items parent).Pairwise fun a b => keyLEdet a b = true) ∧
    (∀ (items : List String) (parent : String),
      (childrenOfParentPdf items parent).Pairwise fun a b => keyLEpdf a b = true) ∧
    childrenOfParentDet ["1.01", "1.02", "2.01"] "1" = ["1.01", "1.02"] ∧
    childrenOfParentPdf ["1.01", "1.02", "2.01"] "1" = ["1.01", "1.02"] ∧
    childrenOfParentDet ["1.01", "1.02", "2.01"] "2" = ["2.01"] ∧
    childrenOfParentPdf ["1.01", "1.02", "2.01"] "2" = ["2.01"] := by
  refine ⟨?_, ?_, ?_, ?_, by decide, by decide, by decide, by decide⟩
  · intro items parent c
    rw [childrenOfParentDet, mem_stableSort, List.mem_filter]
  · intro items parent c
    rw [childrenOfParentPdf, mem_stableSort, List.mem_filter]
    constructor
    · rintro ⟨hm, hb⟩
      rcases Bool.and_eq_true_iff.1 hb with ⟨h1, h2⟩
      have h2' : countDots c = countDots parent + 1 := by simpa using h2
      refine ⟨hm, h1, ?_⟩
      rw [depth_eq, depth_eq, h2']
    · rintro ⟨hm, h1, h2⟩
      refine ⟨hm, Bool.and_eq_true_iff.2 ⟨h1, ?_⟩⟩
      have hc' := depth_eq c
      have hp' := depth_eq parent
      have hcnt : countDots c = countDots parent + 1 := by omega
      simpa using hcnt
  · intro items parent
    exact pairwise_stableSort keyLEdet_trans keyLEdet_total _
  · intro items parent
    exact pairwise_stableSort keyLEpdf_trans keyLEpdf_total _

/-! ### Claim C6 -/

theorem pyInt?_nonneg (s : String) (h : '-' ∉ s.data) (n : Int)
    (hn : pyInt? s = some n) : 0 ≤ n := by
  unfold pyInt? at hn
  split at hn
  · exact absurd hn (by simp)
  · rename_i rest heq
    exact absurd (heq ▸ List.mem_cons_self '-' rest) h
  · split at hn
    · injection hn with h'
      rw [← h']
      exact Int.ofNat_nonneg _
    · exact absurd hn (by simp)
  · split at hn
    · injection hn with h'
      rw [← h']
      exact Int.ofNat_nonneg _
    · exact absurd hn (by simp)

theorem mem_data_of_mem_dotSplit {s seg : String} (hseg : seg ∈ dotSplit s) :
    ∀ a ∈ seg.data, a ∈ s.data := by
  intro a ha
  rcases List.mem_map.1 hseg with ⟨part, hpart, hmk⟩
  have hap : a ∈ part := by
    have : seg.data = part := by rw [← hmk]
    exact this ▸ ha
  have := mem_joinSep_of_mem '.' hpart hap
  rwa [joinSep_splitSep] at this

/-- **C6** as stated is false on the empty string: Python `"".split(".")`
is `[""]`, so both `_parse_key` variants map `""` to `(0,)`, not `()`. -/
theorem C6_parse_key_counterexample :
    parseKeyDet "" = [0] ∧ parseKeyPdf "" = [0] ∧ ([0] : List Int) ≠ [] := by
  decide

/-- **C6** (amended): `_parse_key` is total and returns one integer
component per dot-separated segment (so the empty string gives `(0,)`,
not `()`); unparseable segments map to `0` (`parse_key("abc.3") = (0,3)`);
a single segment `"5"` gives `(5,)`; and on codes without a minus sign
every component is non-negative. -/
theorem C6_parse_key_amended :
    (∀ s : String, (parseKeyDet s).length = depth s) ∧
    (∀ s : String, (parseKeyPdf s).length = depth s) ∧
    (∀ s : String, '-' ∉ s.data → ∀ k ∈ parseKeyDet s, 0 ≤ k) ∧
    parseKeyDet "abc.3" = [0, 3] ∧ parseKeyDet "5" = [5] ∧ parseKeyDet "" = [0] ∧
    parseKeyPdf "abc.3" = [0, 3] ∧ parseKeyPdf "5" = [5] ∧ parseKeyPdf "" = [0] := by
  refine ⟨?_, ?_, ?_, by decide, by decide, by decide, by decide, by decide, by decide⟩
  · intro s
    simp [parseKeyDet, depth]
  · intro s
    simp [parseKeyPdf, depth]
  · intro s hminus k hk
    rcases List.mem_map.1 hk with ⟨seg, hseg, hks⟩
    have hsegminus : '-' ∉ seg.data := by
      intro hm
      exact hminus (mem_data_of_mem_dotSplit hseg '-' hm)
    rw [← hks, segKeyDet]
    cases hp : pyInt? seg with
    | none => simp
    | some n =>
      simp only [Option.getD_some]
      exact pyInt?_nonneg seg hsegminus n hp

/-! ### Price aggregation (`_compute_precio_unitario_por_item`) -/

/-- One row of `detalle.csv`: item code, catalog code, quantity cell
(`none` models a missing or non-numeric cell, pandas `NaN`). -/
structure DetRow where
  item : String
  codigo : String
  cantidad : Option ℚ
deriving DecidableEq

/-- One catalog row of `construction_budget_data.csv`, restricted to the
columns the aggregation uses: catalog code and unit price `Pres`. -/
structure CatRow where
  codigo : String
  pres : Option ℚ
deriving DecidableEq

/-- `pd.to_numeric(x, errors="coerce").fillna(0.0)`. -/
def toNum0 (x : Option ℚ) : ℚ := x.getD 0

/-- The left merge of the detail rows with the catalog on `Codigo` followed
by `subtotal_linea = cantidad * Pres`: each detail row is replicated once
per matching catalog row; an unmatched row survives once with price
`NaN → 0`.  Each merged row carries the item code and its line subtotal. -/
def mergedSubtotals (det : List DetRow) (maestro : List CatRow) : List (String × ℚ) :=
  det.flatMap fun d =>
    let ms := maestro.filter fun m => m.codigo == d.codigo
    if ms.isEmpty then [(d.item, toNum0 d.cantidad * 0)]
    else ms.map fun m => (d.item, toNum0 d.cantidad * toNum0 m.pres)

/-- `_compute_precio_unitario_por_item` as observed through the callers'
`precios.get(item, 0.0)`: an empty detail table yields the empty dict
(default `0`); otherwise the `groupby("item")["subtotal_linea"].sum()`
entry of `item` (`0` again if the item has no detail rows). -/
def precioUnitItem (det : List DetRow) (maestro : List CatRow) (item : String) : ℚ :=
  if det.isEmpty then 0
  else (((mergedSubtotals det maestro).filter fun r => r.1 == item).map fun r => r.2).sum

theorem precioUnitItem_eq_sum (det : List DetRow) (maestro : List CatRow) (item : String) :
    precioUnitItem det maestro item
      = ((det.filter fun d => d.item == item).map fun d =>
          toNum0 d.cantidad *
            ((maestro.filter fun m => m.codigo == d.codigo).map fun m =>
              toNum0 m.pres).sum).sum := by
  have key : ∀ rows : List DetRow,
      (((mergedSubtotals rows maestro).filter fun r => r.1 == item).map fun r => r.2).sum
        = ((rows.filter fun d => d.item == item).map fun d =>
            toNum0 d.cantidad *
              ((maestro.filter fun m => m.codigo == d.codigo).map fun m =>
                toNum0 m.pres).sum).sum := by
    intro rows
    induction rows with
    | nil => simp [mergedSubtotals]
    | cons d rows ih =>
      have hblock : mergedSubtotals (d :: rows) maestro
          = (if (maestro.filter fun m => m.codigo == d.codigo).isEmpty
              then [(d.item, toNum0 d.cantidad * 0)]
              else (maestro.filter fun m => m.codigo == d.codigo).map fun m =>
                (d.item, toNum0 d.cantidad * toNum0 m.pres))
            ++ mergedSubtotals rows maestro := by
        simp [mergedSubtotals]
      rw [hblock, List.filter_append, List.map_append, List.sum_append, ih,
        List.filter_cons]
      by_cases hd : (d.item == item) = true
      · rw [if_pos hd]
        simp only [List.map_cons, List.sum_cons]
        by_cases hms : (maestro.filter fun m => m.codigo == d.codigo).isEmpty
        · rw [if_pos hms]
          rw [List.isEmpty_iff.1 hms]
          simp [hd]
        · rw [if_neg hms]
          rw [List.filter_map]
          have hkeep : ((maestro.filter fun m => m.codigo == d.codigo).filter
              ((fun r : String × ℚ => r.1 == item) ∘ fun m =>
                (d.item, toNum0 d.cantidad * toNum0 m.pres)))
              = maestro.filter fun m => m.codigo == d.codigo := by
            apply List.filter_eq_self.2
            intro m _
            simpa using hd
          rw [hkeep, List.map_map]
          have : ((fun r : String × ℚ => r.2) ∘ fun m =>
              (d.item, toNum0 d.cantidad * toNum0 m.pres))
              = fun m : CatRow => toNum0 d.cantidad * toNum0 m.pres := rfl
          rw [this, ← List.sum_map_mul_left]
      · rw [if_neg hd]
        by_cases hms : (maestro.filter fun m => m.codigo == d.codigo).isEmpty
        · rw [if_pos hms]
          simp [hd]
        · rw [if_neg hms]
          rw [List.filter_map]
          have hdrop : ((maestro.filter fun m => m.codigo == d.codigo).filter
              ((fun r : String × ℚ => r.1 == item) ∘ fun m =>
                (d.item, toNum0 d.cantidad * toNum0 m.pres)))
              = [] := by
            apply List.filter_eq_nil_iff.2
            intro m _
            simpa using hd
          rw [hdrop]
          simp
  cases det with
  | nil => simp [precioUnitItem]
  | cons d rows =>
    rw [precioUnitItem, if_neg (by simp)]
    exact key (d :: rows)

/-- **C5**: `unit_price` equals the sum over the item's detail rows of
quantity × (total catalog price at that catalog code), so duplicated
catalog codes are summed, never overwritten; an empty detail set gives 0;
one row `{X: 3}` at catalog price 100 gives 300; an additional duplicate
row `{X: 2}` gives 500. -/
theorem C5_unit_price_aggregation :
    (∀ (det : List DetRow) (maestro : List CatRow) (item : String),
      precioUnitItem det maestro item
        = ((det.filter fun d => d.item == item).map fun d =>
            toNum0 d.cantidad *
              ((maestro.filter fun m => m.codigo == d.codigo).map fun m =>
                toNum0 m.pres).sum).sum) ∧
    precioUnitItem [] [⟨"X", some 100⟩] "I" = 0 ∧
    precioUnitItem [⟨"I", "X", some 3⟩] [⟨"X", some 100⟩] "I" = 300 ∧
    precioUnitItem [⟨"I", "X", some 3⟩, ⟨"I", "X", some 2⟩] [⟨"X", some 100⟩] "I" = 500 := by
  refine ⟨precioUnitItem_eq_sum, by norm_num [precioUnitItem], ?_, ?_⟩
  · rw [precioUnitItem_eq_sum]
    norm_num [toNum0, List.filter_cons]
  · rw [precioUnitItem_eq_sum]
    norm_num [toNum0, List.filter_cons]

/-- **C8**: `unit_price` never raises on bad reference data — a detail row
whose catalog code has no catalog match contributes 0 (left-join miss), a
missing/non-numeric quantity contributes 0, and a matched catalog row with
a missing/non-numeric price contributes 0. -/
theorem C8_unit_price_robust :
    (∀ (d : DetRow) (det : List DetRow) (maestro : List CatRow) (item : String),
      (∀ m ∈ maestro, m.codigo ≠ d.codigo) →
        precioUnitItem (d :: det) maestro item = precioUnitItem det maestro item) ∧
    (∀ (d : DetRow) (det : List DetRow) (maestro : List CatRow) (item : String),
      d.cantidad = none →
        precioUnitItem (d :: det) maestro item = precioUnitItem det maestro item) ∧
    (∀ (item codigo : String) (q : ℚ),
      precioUnitItem [⟨item, codigo, some q⟩] [⟨codigo, none⟩] item = 0) := by
  refine ⟨?_, ?_, ?_⟩
  · intro d det maestro item hm
    rw [precioUnitItem_eq_sum, precioUnitItem_eq_sum, List.filter_cons]
    by_cases hd : (d.item == item) = true
    · rw [if_pos hd]
      simp only [List.map_cons, List.sum_cons]
      have hnil : (maestro.filter fun m => m.codigo == d.codigo) = [] :=
        List.filter_eq_nil_iff.2 (fun m hmem => by simpa using hm m hmem)
      rw [hnil]
      simp
    · rw [if_neg hd]
  · intro d det maestro item hq
    rw [precioUnitItem_eq_sum, precioUnitItem_eq_sum, List.filter_cons]
    by_cases hd : (d.item == item) = true
    · rw [if_pos hd]
      simp only [List.map_cons, List.sum_cons]
      rw [hq]
      simp [toNum0]
    · rw [if_neg hd]
  · intro item codigo q
    rw [precioUnitItem_eq_sum]
    simp [toNum0, List.filter_cons]

theorem C8_unit_price_robust_witness :
    precioUnitItem [⟨"I", "X", some 3⟩] [⟨"Y", some 5⟩] "I"
        = precioUnitItem [] [⟨"Y", some 5⟩] "I" ∧
    precioUnitItem [⟨"I", "X", none⟩] [⟨"X", some 5⟩] "I"
        = precioUnitItem [] [⟨"X", some 5⟩] "I" :=
  ⟨C8_unit_price_robust.1 _ _ _ _ (by decide),
    C8_unit_price_robust.2.1 _ _ _ _ rfl⟩

/-! ### Currency conversion (`funciones/monedas.py`) -/

/-- One row of `monedas.csv`: code, name, CLP value per unit (`none` models
a non-numeric cell before the loader's `fillna(1.0)`). -/
structure MonedaRow where
  codigo : String
  nombre : String
  valorCLP : Option ℚ
deriving DecidableEq

/-- Python `s.upper()` for the ASCII currency codes in use. -/
def pyUpper (s : String) : String := String.mk (s.data.map Char.toUpper)

/-- The default table `load_monedas` writes when `monedas.csv` is absent. -/
def defaultMonedas : List MonedaRow :=
  [⟨"CLP", "Peso Chileno", some 1⟩,
   ⟨"UF", "Unidad de Fomento", some (3971889 / 100)⟩,
   ⟨"USD", "Dólar Estadounidense", some (86207 / 100)⟩]

/-- `load_monedas` column coercion:
`ValorCLP = to_numeric(..., errors="coerce").fillna(1.0)`. -/
def loadMonedas (raw : List MonedaRow) : List MonedaRow :=
  raw.map fun m => { m with valorCLP := some (m.valorCLP.getD 1) }

/-- `get_moneda_value`: value of the first row whose code matches
case-insensitively; `1.0` (the CLP rate) when no row matches. -/
def getMonedaValue (raw : List MonedaRow) (codigo : String) : ℚ :=
  match (loadMonedas raw).find? (fun m => pyUpper m.codigo == pyUpper codigo) with
  | some m => m.valorCLP.getD 1
  | none => 1

/-- `convert_clp_to`: divide the CLP amount by the target rate; a zero rate
returns the plain float `0.0`. -/
def convertClpTo (raw : List MonedaRow) (montoClp : ℚ) (monedaDestino : String) : ℚ :=
  if getMonedaValue raw monedaDestino = 0 then 0
  else montoClp / getMonedaValue raw monedaDestino

theorem getMonedaValue_head_match (raw : List MonedaRow) (m : MonedaRow) (codigo : String)
    (h : (pyUpper m.codigo == pyUpper codigo) = true) :
    getMonedaValue (m :: raw) codigo = m.valorCLP.getD 1 := by
  unfold getMonedaValue loadMonedas
  simp only [List.map_cons]
  rw [List.find?_cons_of_pos _ (by simpa using h)]
  rfl

theorem getMonedaValue_head_skip (raw : List MonedaRow) (m : MonedaRow) (codigo : String)
    (h : (pyUpper m.codigo == pyUpper codigo) = false) :
    getMonedaValue (m :: raw) codigo = getMonedaValue raw codigo := by
  unfold getMonedaValue loadMonedas
  simp only [List.map_cons]
  rw [List.find?_cons_of_neg _ (by simpa using h)]

theorem getMonedaValue_no_match (raw : List MonedaRow) (codigo : String)
    (h : ∀ m ∈ raw, pyUpper m.codigo ≠ pyUpper codigo) :
    getMonedaValue raw codigo = 1 := by
  have hnone : (loadMonedas raw).find? (fun m => pyUpper m.codigo == pyUpper codigo)
      = none := by
    rw [List.find?_eq_none]
    intro m hm
    rcases List.mem_map.1 hm with ⟨m₀, hm₀, hmap⟩
    have hcod : m.codigo = m₀.codigo := by
      rw [← hmap]
    simp [hcod, h m₀ hm₀]
  unfold getMonedaValue
  rw [hnone]

/-! ### Claim C7 -/

/-- **C7** as stated is false: there is no distinguishable "unavailable"
sentinel.  A zero rate makes `convert_clp_to` return the plain number
`0.0` — the same value as legitimately converting a zero amount — and a
missing currency code defaults the rate to `1.0`, returning the amount
unchanged — the same value as a legitimate CLP conversion. -/
theorem C7_currency_sentinel_counterexample :
    convertClpTo [⟨"UFX", "Tasa nula", some 0⟩] 100 "UFX" = 0 ∧
    convertClpTo defaultMonedas 0 "CLP" = 0 ∧
    convertClpTo defaultMonedas 100 "XYZ" = 100 ∧
    convertClpTo defaultMonedas 100 "CLP" = 100 := by
  have hz : getMonedaValue [⟨"UFX", "Tasa nula", some 0⟩] "UFX" = 0 := by
    rw [getMonedaValue_head_match _ _ _ (by decide)]
    rfl
  have hclp : getMonedaValue defaultMonedas "CLP" = 1 := by
    rw [defaultMonedas, getMonedaValue_head_match _ _ _ (by decide)]
    rfl
  have hxyz : getMonedaValue defaultMonedas "XYZ" = 1 :=
    getMonedaValue_no_match _ _ (by decide)
  refine ⟨?_, ?_, ?_, ?_⟩
  · rw [convertClpTo, hz, if_pos rfl]
  · rw [convertClpTo, hclp]
    norm_num
  · rw [convertClpTo, hxyz]
    norm_num
  · rw [convertClpTo, hclp]
    norm_num

/-- **C7** (amended): conversion divides the CLP aggregate by the target
rate, so converting an amount equal to the UF rate (39718.89) into UF
yields 1.0; it is total and never divides by zero — but a zero rate
returns the plain value `0.0` and a missing rate defaults to `1.0`
(amount returned unchanged), neither being a distinguishable sentinel;
likewise the Excel generator keeps the raw CLP price when the conversion
factor is not positive. -/
theorem C7_currency_conversion_amended :
    convertClpTo defaultMonedas (3971889 / 100) "UF" = 1 ∧
    (∀ (raw : List MonedaRow) (monto : ℚ) (codigo : String),
      getMonedaValue raw codigo = 0 → convertClpTo raw monto codigo = 0) ∧
    (∀ (raw : List MonedaRow) (monto : ℚ) (codigo : String),
      (∀ m ∈ raw, pyUpper m.codigo ≠ pyUpper codigo) →
        convertClpTo raw monto codigo = monto) ∧
    (∀ (raw : List MonedaRow) (monto : ℚ) (codigo : String),
      getMonedaValue raw codigo ≠ 0 →
        convertClpTo raw monto codigo = monto / getMonedaValue raw codigo) ∧
    (∀ factor punit : ℚ, ¬ 0 < factor → convertPUnitExcel factor punit = punit) := by
  refine ⟨?_, ?_, ?_, ?_, ?_⟩
  · have huf : getMonedaValue defaultMonedas "UF" = 3971889 / 100 := by
      rw [defaultMonedas, getMonedaValue_head_skip _ _ _ (by decide),
        getMonedaValue_head_match _ _ _ (by decide)]
      rfl
    rw [convertClpTo, huf]
    norm_num
  · intro raw monto codigo h
    rw [convertClpTo, h, if_pos rfl]
  · intro raw monto codigo h
    rw [convertClpTo, getMonedaValue_no_match raw codigo h]
    norm_num
  · intro raw monto codigo h
    rw [convertClpTo, if_neg h]
  · intro factor punit h
    rw [convertPUnitExcel, if_neg h]

theorem C7_currency_conversion_amended_witness :
    convertClpTo [⟨"Z", "Cero", some 0⟩] 55 "Z" = 0 ∧
    convertClpTo [] 77 "EUR" = 77 ∧
    convertClpTo defaultMonedas 10 "USD" = 10 / getMonedaValue defaultMonedas "USD" ∧
    convertPUnitExcel 0 9 = 9 :=
  ⟨C7_currency_conversion_amended.2.1 _ _ _
      (by
        rw [getMonedaValue_head_match _ _ _ (by decide)]
        rfl),
    C7_currency_conversion_amended.2.2.1 _ _ _ (by simp),
    C7_currency_conversion_amended.2.2.2.1 _ _ _
      (by
        rw [defaultMonedas, getMonedaValue_head_skip _ _ _ (by decide),
          getMonedaValue_head_skip _ _ _ (by decide),
          getMonedaValue_head_match _ _ _ (by decide)]
        norm_num),
    C7_currency_conversion_amended.2.2.2.2 0 9 (by norm_num)⟩

/-! ### Claim C10 -/

/-- **C10**: `get_moneda_value` matches case-insensitively and silently
defaults to the CLP rate `1.0` when no row matches, so converting an
amount with an unknown currency code returns the amount unchanged instead
of signalling an error. -/
theorem C10_unknown_currency_defaults :
    (∀ (raw : List MonedaRow) (c₁ c₂ : String), pyUpper c₁ = pyUpper c₂ →
      getMonedaValue raw c₁ = getMonedaValue raw c₂) ∧
    (∀ (raw : List MonedaRow) (codigo : String),
      (∀ m ∈ raw, pyUpper m.codigo ≠ pyUpper codigo) →
        getMonedaValue raw codigo = 1) ∧
    (∀ (raw : List MonedaRow) (montoClp : ℚ) (codigo : String),
      (∀ m ∈ raw, pyUpper m.codigo ≠ pyUpper codigo) →
        convertClpTo raw montoClp codigo = montoClp) ∧
    getMonedaValue defaultMonedas "usd" = getMonedaValue defaultMonedas "USD" := by
  have hci : ∀ (raw : List MonedaRow) (c₁ c₂ : String), pyUpper c₁ = pyUpper c₂ →
      getMonedaValue raw c₁ = getMonedaValue raw c₂ := by
    intro raw c₁ c₂ h
    unfold getMonedaValue
    rw [h]
  refine ⟨hci, getMonedaValue_no_match, ?_, hci _ _ _ (by decide)⟩
  intro raw monto codigo h
  rw [convertClpTo, getMonedaValue_no_match raw codigo h]
  norm_num

theorem C10_unknown_currency_defaults_witness :
    getMonedaValue defaultMonedas "clp" = getMonedaValue defaultMonedas "CLP" ∧
    getMonedaValue [] "EUR" = 1 ∧
    convertClpTo [] 250 "EUR" = 250 :=
  ⟨C10_unknown_currency_defaults.1 _ _ _ (by decide),
    C10_unknown_currency_defaults.2.1 [] "EUR" (by simp),
    C10_unknown_currency_defaults.2.2.1 [] 250 "EUR" (by simp)⟩

/-! ### Claim C3 -/

/-- **C3** — the claim is right and the cited code is wrong (`code_bug`):
the `Item` columns read by `load_presupuesto` and
`generar_pdf_presupuesto` undergo numeric type inference, so the two
distinct stored codes `"1.10"` and `"1.1"` load to the *same* float value
`1.1`; no re-serialization can return both to their original strings, and
the value held is numeric, not the exact string the claim requires.  (The
repository knows this: `repro_empty.py` reproduces exactly this, and
`crear_detallado.py` line 143 pins `dtype={"Item": str}` with a comment —
that loader, also modelled here, keeps codes as exact strings.) -/
theorem C3_item_column_float_coercion :
    inferItemColumn ["1.10"] = inferItemColumn ["1.1"] ∧
    inferItemColumn ["1.10"] = [CsvVal.num (11 / 10)] ∧
    "1.10" ≠ "1.1" ∧
    (∀ cells : List String, loadItemColumnStr cells = cells.map CsvVal.str) := by
  have hv10 : pdFloat? "1.10"
      = some (((1 : ℕ) : ℚ) + ((10 : ℕ) : ℚ) / (10 : ℚ) ^ (2 : ℕ)) := rfl
  have hv1 : pdFloat? "1.1"
      = some (((1 : ℕ) : ℚ) + ((1 : ℕ) : ℚ) / (10 : ℚ) ^ (1 : ℕ)) := rfl
  have he10 : inferItemColumn ["1.10"] = [CsvVal.num (11 / 10)] := by
    unfold inferItemColumn
    rw [if_pos (by decide)]
    rw [List.map_cons, List.map_nil, hv10]
    norm_num
  have he1 : inferItemColumn ["1.1"] = [CsvVal.num (11 / 10)] := by
    unfold inferItemColumn
    rw [if_pos (by decide)]
    rw [List.map_cons, List.map_nil, hv1]
    norm_num
  exact ⟨he10.trans he1.symm, he10, by decide, fun cells => rfl⟩

/-! ### Detail-table editing (`funciones/modificar_presupuesto.py`) -/

/-- One row of `datos.csv` as `_upsert_item` writes it. -/
structure DatosRow where
  item : String
  partida : String
  fecha : String
  cantTipo : String
  cantNum : ℚ
  moneda : ℚ
deriving DecidableEq

/-- Python `s.strip()` (whitespace removed at both ends). -/
def pyStrip (s : String) : String :=
  String.mk (((s.data.dropWhile Char.isWhitespace).reverse.dropWhile
    Char.isWhitespace).reverse)

/-- `_upsert_item`: overwrite every field of the first row whose `Item`
equals the (unstripped) new code, or append a new row. -/
def upsertItem (datos : List DatosRow) (itemCode partida fecha cantTipo : String)
    (cantNum moneda : ℚ) : List DatosRow :=
  let row : DatosRow :=
    ⟨pyStrip itemCode, pyStrip partida, pyStrip fecha, cantTipo, cantNum, moneda⟩
  match datos.findIdx? (fun r => r.item == itemCode) with
  | some i => datos.set i row
  | none => datos ++ [row]

/-- Digit runs of a code, in order (`re.findall(r"\d+", s)`). -/
def digitGroupsAux : List Char → List Char → List (List Char)
  | [], cur => if cur.isEmpty then [] else [cur.reverse]
  | c :: cs, cur =>
    if c.isDigit then digitGroupsAux cs (c :: cur)
    else if cur.isEmpty then digitGroupsAux cs []
    else cur.reverse :: digitGroupsAux cs []

/-- Python `str.zfill(w)` on a digit run. -/
def zfillChars (w : Nat) (cs : List Char) : List Char :=
  List.replicate (w - cs.length) '0' ++ cs

/-- `_norm_item_code`: the digit groups zero-filled to width 6 and joined
by dots; a code without digits is returned unchanged. -/
def normItemCode (code : String) : String :=
  let parts := digitGroupsAux code.data []
  if parts.isEmpty then code
  else String.mk (joinSep '.' (parts.map (zfillChars 6)))

/-- Lexicographic comparison of character lists by code point, as pandas
compares object (string) columns. -/
def charListLE : List Char → List Char → Bool
  | [], _ => true
  | _ :: _, [] => false
  | a :: as, b :: bs =>
    if a.toNat < b.toNat then true
    else if a = b then charListLE as bs else false

def strLE (a b : String) : Bool := charListLE a.data b.data

/-- `_sort_datos_by_item` ordering: by the normalized item code. -/
def datosSortLE (a b : DatosRow) : Bool :=
  strLE (normItemCode a.item) (normItemCode b.item)

def sortDatosByItem (datos : List DatosRow) : List DatosRow :=
  stableSort datosSortLE datos

/-- `_sort_detalle_by_item` ordering: by normalized item code, then by
catalog code. -/
def detSortLE (a b : DetRow) : Bool :=
  if normItemCode a.item = normItemCode b.item then strLE a.codigo b.codigo
  else strLE (normItemCode a.item) (normItemCode b.item)

def sortDetalleByItem (rows : List DetRow) : List DetRow :=
  stableSort detSortLE rows

/-- `(item, Codigo)` key of a detail row. -/
def detKey (r : DetRow) : String × String := (r.item, r.codigo)

/-- `groupby(["item","Codigo"], as_index=False)["cantidad"].sum()`: one row
per distinct key carrying the sum of the coerced quantities.  (The model's
key order may differ from pandas' sorted group-key order; every call site
re-sorts afterwards and the claims rely only on the key set and sums.) -/
def consolidateDet (rows : List DetRow) : List DetRow :=
  ((rows.map detKey).dedup).map fun k =>
    ⟨k.1, k.2, some (((rows.filter fun r => detKey r == k).map fun r =>
      toNum0 r.cantidad).sum)⟩

/-- `_rename_item_and_consolidate`: upsert the new row into `datos.csv`,
drop the old row when renaming, relabel and consolidate `detalle.csv` when
renaming onto a nonempty table, and sort both. -/
def renameItemAndConsolidate (datos : List DatosRow) (det : List DetRow)
    (oldItem newItem partida fechaStr cantTipo : String) (cantNum moneda : ℚ) :
    List DatosRow × List DetRow :=
  let datosUpd := upsertItem datos newItem partida fechaStr cantTipo cantNum moneda
  let datosUpd2 := if newItem ≠ oldItem
    then datosUpd.filter fun r => r.item ≠ oldItem else datosUpd
  let detUpd := if newItem ≠ oldItem ∧ det ≠ []
    then consolidateDet (det.map fun r =>
      if r.item == oldItem then { r with item := newItem } else r)
    else det
  (sortDatosByItem datosUpd2, sortDetalleByItem detUpd)

/-- `_delete_item`: drop the item from both tables, consolidate the
remaining detail defensively when nonempty, and sort. -/
def deleteItemOp (datos : List DatosRow) (det : List DetRow) (itemCode : String) :
    List DatosRow × List DetRow :=
  let datosUpd := datos.filter fun r => r.item ≠ itemCode
  let detUpd := det.filter fun r => r.item ≠ itemCode
  let detUpd2 := if detUpd ≠ [] then consolidateDet detUpd else detUpd
  (sortDatosByItem datosUpd, sortDetalleByItem detUpd2)

/-- The "Guardar cambios" detail-save block of
`render_modificar_presupuesto` (lines 471-491): the active item's rows are
replaced by the positive entries of its quantity map, other items' rows
are kept, and a nonempty result is consolidated and sorted. -/
def saveDetalleOp (det : List DetRow) (activeItem : String)
    (qtyMap : List (String × ℚ)) : List DetRow :=
  let positive := qtyMap.filter fun cq => 0 < cq.2
  let newDet := positive.map fun cq => (⟨activeItem, cq.1, some cq.2⟩ : DetRow)
  let others := det.filter fun r => r.item ≠ activeItem
  let detUpd := others ++ newDet
  if detUpd ≠ [] then sortDetalleByItem (consolidateDet detUpd) else detUpd

/-- The detail-table invariant: at most one row per (item, catalog code)
pair. -/
def detInvariant (rows : List DetRow) : Prop := (rows.map detKey).Nodup

instance (rows : List DetRow) : Decidable (detInvariant rows) := by
  unfold detInvariant
  exact List.nodupDecidable _

theorem detKey_consolidate (rows : List DetRow) :
    (consolidateDet rows).map detKey = (rows.map detKey).dedup := by
  unfold consolidateDet
  rw [List.map_map]
  have h : ∀ k ∈ (rows.map detKey).dedup,
      (detKey ∘ fun k : String × String =>
        (⟨k.1, k.2, some (((rows.filter fun r => detKey r == k).map fun r =>
          toNum0 r.cantidad).sum)⟩ : DetRow)) k = id k := by
    intro k _
    simp [detKey]
  rw [List.map_congr_left h, List.map_id]

theorem consolidateDet_invariant (rows : List DetRow) :
    detInvariant (consolidateDet rows) := by
  unfold detInvariant
  rw [detKey_consolidate]
  exact List.nodup_dedup _

theorem sortDetalle_invariant {rows : List DetRow} (h : detInvariant rows) :
    detInvariant (sortDetalleByItem rows) := by
  unfold detInvariant at h ⊢
  exact (((stableSort_perm detSortLE rows).map detKey).nodup_iff).2 h

theorem filter_detInvariant (p : DetRow → Bool) {rows : List DetRow}
    (h : detInvariant rows) : detInvariant (rows.filter p) := by
  unfold detInvariant at h ⊢
  exact ((List.filter_sublist rows).map detKey).nodup h

theorem consolidateDet_sums (rows : List DetRow) (r : DetRow)
    (hr : r ∈ consolidateDet rows) :
    r.cantidad = some (((rows.filter fun x => detKey x == detKey r).map fun x =>
      toNum0 x.cantidad).sum) := by
  unfold consolidateDet at hr
  rcases List.mem_map.1 hr with ⟨k, _, hrk⟩
  rw [← hrk]
  simp [detKey]

/-! ### Claim C9 -/

/-- **C9**: starting from a detail table satisfying the invariant "at most
one row per (item code, catalog code) pair", each editing operation that
writes the detail table — rename/consolidate, item deletion, and the
detail save — writes back a table that still satisfies it, and whenever
consolidation runs, duplicated pairs are merged by *summing* their coerced
quantities (last conjunct). -/
theorem C9_detalle_invariant_preserved (datos : List DatosRow) (det : List DetRow)
    (oldItem newItem partida fechaStr cantTipo : String) (cantNum moneda : ℚ)
    (itemCode activeItem : String) (qtyMap : List (String × ℚ))
    (h : detInvariant det) :
    detInvariant (renameItemAndConsolidate datos det oldItem newItem partida
      fechaStr cantTipo cantNum moneda).2 ∧
    detInvariant (deleteItemOp datos det itemCode).2 ∧
    detInvariant (saveDetalleOp det activeItem qtyMap) ∧
    (∀ (rows : List DetRow) (r : DetRow), r ∈ consolidateDet rows →
      r.cantidad = some (((rows.filter fun x => detKey x == detKey r).map fun x =>
        toNum0 x.cantidad).sum)) := by
  refine ⟨?_, ?_, ?_, consolidateDet_sums⟩
  · unfold renameItemAndConsolidate
    dsimp only
    apply sortDetalle_invariant
    by_cases hc : newItem ≠ oldItem ∧ det ≠ []
    · rw [if_pos hc]
      exact consolidateDet_invariant _
    · rw [if_neg hc]
      exact h
  · unfold deleteItemOp
    dsimp only
    apply sortDetalle_invariant
    by_cases hc : det.filter (fun r => r.item ≠ itemCode) ≠ []
    · rw [if_pos hc]
      exact consolidateDet_invariant _
    · rw [if_neg hc]
      exact filter_detInvariant _ h
  · unfold saveDetalleOp
    dsimp only
    by_cases hc : (det.filter fun r => r.item ≠ activeItem)
        ++ ((qtyMap.filter fun cq => 0 < cq.2).map fun cq =>
          (⟨activeItem, cq.1, some cq.2⟩ : DetRow)) ≠ []
    · rw [if_pos hc]
      exact sortDetalle_invariant (consolidateDet_invariant _)
    · rw [if_neg hc]
      rw [not_ne_iff.1 hc]
      unfold detInvariant
      simp

theorem C9_detalle_invariant_preserved_witness :
    detInvariant [(⟨"1.01", "X", some 2⟩ : DetRow), ⟨"1.02", "X", some 1⟩] ∧
    (detInvariant (renameItemAndConsolidate []
        [⟨"1.01", "X", some 2⟩, ⟨"1.02", "X", some 1⟩]
        "1.01" "2.01" "p" "01/01/2026" "GL" 1 1).2 ∧
      detInvariant (deleteItemOp []
        [⟨"1.01", "X", some 2⟩, ⟨"1.02", "X", some 1⟩] "1.01").2 ∧
      detInvariant (saveDetalleOp
        [⟨"1.01", "X", some 2⟩, ⟨"1.02", "X", some 1⟩] "1.01" [("X", 3)]) ∧
      (∀ (rows : List DetRow) (r : DetRow), r ∈ consolidateDet rows →
        r.cantidad = some (((rows.filter fun x => detKey x == detKey r).map fun x =>
          toNum0 x.cantidad).sum))) :=
  ⟨by decide,
    C9_detalle_invariant_preserved [] [⟨"1.01", "X", some 2⟩, ⟨"1.02", "X", some 1⟩]
      "1.01" "2.01" "p" "01/01/2026" "GL" 1 1 "1.01" "1.01" [("X", 3)] (by decide)⟩

theorem C6_parse_key_amended_witness :
    ('-' ∉ "2.10".data) ∧ (∀ k ∈ parseKeyDet "2.10", 0 ≤ k) :=
  ⟨by decide, C6_parse_key_amended.2.2.1 "2.10" (by decide)⟩
